import Mathlib

/-!
Verification of the retrieval-and-trust pipeline of the document-intelligence
backend (`backend/app.py`): chunking, retrieval, confidence scoring,
guardrails, and structured extraction.

Modelling conventions:
* Python strings are `List Char` (`Str`); Python floats are `ℚ` (exact
  rational arithmetic in place of IEEE doubles).
* The external embedding capability is modelled as an oracle supplying one
  similarity score per chunk (index-aligned with the chunk list). The
  in-repo call to sklearn cosine_similarity additionally validates its
  inputs per the library contract, rejecting an empty embedding matrix
  (`cosine_similarity_row` below). The external generation capability is
  an oracle supplying the answer text (resp. the parse outcome of its
  response).
* `np.argsort` (ascending, default kind) is modelled as a deterministic
  ascending sort; numpy documents no tie order for equal elements in
  general, so no theorem below relies on the tie order of this model
  except at concrete two-element inputs, where introsort runs insertion
  sort and provably agrees with the model. The code reverses the argsort
  and takes the first `top_k` entries.
-/

namespace UltraDoc

/-- Python strings are modelled as lists of characters. -/
abbrev Str := List Char

/-- Coerce a Lean string literal to the `Str` model. -/
def cs (s : String) : Str := s.toList

/-- Python whitespace test for `str.strip` / `str.split()`: space, tab,
newline, carriage return, vertical tab, form feed. -/
def wsChar (c : Char) : Bool := c.isWhitespace || c == '\x0b' || c == '\x0c'

/-- Python `str.strip()`: drop leading and trailing whitespace. -/
def trim (s : Str) : Str := ((s.dropWhile wsChar).reverse.dropWhile wsChar).reverse

/-- Helper for `splitWS`: returns (word being built at the front, completed
words after it), scanning from the left. -/
def splitWSAux : Str → Str × List Str
  | [] => ([], [])
  | c :: r =>
    let p := splitWSAux r
    if wsChar c then ([], if p.1 = [] then p.2 else p.1 :: p.2)
    else (c :: p.1, p.2)

/-- Python `str.split()` with no argument: split on whitespace runs,
discarding empty fields. -/
def splitWS (s : Str) : List Str :=
  let p := splitWSAux s
  if p.1 = [] then p.2 else p.1 :: p.2

/-- Python `str.lower()` (ASCII behaviour). -/
def lowerStr (s : Str) : Str := s.map Char.toLower

/-- Does `pat` occur at the very start of `s`? -/
def startsWith : Str → Str → Bool
  | _, [] => true
  | [], _ :: _ => false
  | c :: cr, d :: dr => c == d && startsWith cr dr

/-- Python substring test `pat in s`. -/
def containsSub : Str → Str → Bool
  | [], pat => pat.isEmpty
  | c :: r, pat => startsWith (c :: r) pat || containsSub r pat

/-- Python `sep.join(parts)`. -/
def joinWith (sep : Str) : List Str → Str
  | [] => []
  | [x] => x
  | x :: y :: r => x ++ sep ++ joinWith sep (y :: r)

/-- Python text.split on a double newline: split at each non-overlapping
occurrence of the two-character separator, keeping empty fields (the empty
text gives one empty field). -/
def splitPara : Str → List Str
  | [] => [[]]
  | [c] => [[c]]
  | c :: d :: r =>
    if c = '\n' ∧ d = '\n' then [] :: splitPara r
    else
      match splitPara (d :: r) with
      | [] => [[c]]
      | seg :: segs => (c :: seg) :: segs

/-- Decimal digits of a natural number (fuel-driven so that it reduces in
the kernel). -/
def natToStrAux : ℕ → ℕ → Str
  | 0, _ => []
  | _ + 1, n =>
    if n < 10 then [Char.ofNat (48 + n)]
    else natToStrAux n (n / 10) ++ [Char.ofNat (48 + n % 10)]

/-- Decimal rendering of a natural number. -/
def natToStr (n : ℕ) : Str := natToStrAux (n + 1) n

/-- Python `round` to an integer: round half to even (banker's rounding). -/
def pyRoundInt (q : ℚ) : ℤ :=
  let f : ℤ := ⌊q⌋
  let frac : ℚ := q - f
  if frac < 1/2 then f
  else if frac > 1/2 then f + 1
  else if f % 2 = 0 then f else f + 1

/-- Python `round(x, 3)`. -/
def pyRound3 (q : ℚ) : ℚ := (pyRoundInt (q * 1000) : ℚ) / 1000

/-- Python `round(x, 2)`. -/
def pyRound2 (q : ℚ) : ℚ := (pyRoundInt (q * 100) : ℚ) / 100

/-- Python two-decimal fixed-point formatting (format spec .2f): round half
to even to two decimals and render with exactly two digits after the
point. -/
def fmt2 (q : ℚ) : Str :=
  let scaled : ℤ := pyRoundInt (q * 100)
  let sign : Str := if scaled < 0 then ['-'] else []
  let n : ℕ := scaled.natAbs
  let fracPart : ℕ := n % 100
  let fracStr : Str := if fracPart < 10 then '0' :: natToStr fracPart else natToStr fracPart
  sign ++ natToStr (n / 100) ++ ['.'] ++ fracStr

/-- Python `max` over a list of rationals (the empty case is unreachable in
the code: it is guarded by an `or` short-circuit). -/
def pyMaxQ : List ℚ → ℚ
  | [] => 0
  | x :: xs => xs.foldl max x

/-! ### DocumentProcessor.intelligent_chunk (app.py lines 101-137) -/

/-- The paragraph list: the stripped fields of the double-newline split,
keeping only those that are non-empty after stripping. -/
def paragraphsOf (text : Str) : List Str :=
  ((splitPara text).map trim).filter (fun p => p ≠ [])

/-- Total character count of a list of strings. -/
def sumLen (l : List Str) : ℕ := (l.map List.length).sum

/-- Loop state of the chunking loop: accumulated chunks and the chunk being
built. -/
structure ChunkState where
  chunks : List Str
  current : Str
deriving DecidableEq

/-- Python `words[-k:]`; note that for `k = 0` this is the whole list. -/
def lastWords (words : List Str) (k : ℕ) : List Str :=
  if k = 0 then words else words.drop (words.length - k)

/-- One iteration of the `for para in paragraphs` loop (app.py lines
115-124). -/
def chunkStep (chunk_size ov : ℕ) (st : ChunkState) (para : Str) : ChunkState :=
  if st.current.length + para.length > chunk_size ∧ st.current ≠ [] then
    let words := splitWS st.current
    let overlap_text := if words.length > ov / 5 then joinWith [' '] (lastWords words (ov / 5)) else []
    { chunks := st.chunks ++ [trim st.current], current := overlap_text ++ [' '] ++ para }
  else
    { chunks := st.chunks,
      current := if st.current ≠ [] then st.current ++ ['\n', '\n'] ++ para else para }

/-- Number of iterations of Python `range(0, n, step)` (for `step = 0`
Python raises `ValueError`; that case is unreachable with the default
parameters and is modelled as an empty range). -/
def pyRangeCount (n step : ℕ) : ℕ := if step = 0 then 0 else (n + step - 1) / step

/-- Fallback word-window chunking (app.py lines 131-135): windows of
`chunk_size` words advancing by `chunk_size - overlap` words. -/
def fallbackChunks (words : List Str) (chunk_size step : ℕ) : List Str :=
  (List.range (pyRangeCount words.length step)).map
    (fun j => joinWith [' '] ((words.drop (j * step)).take chunk_size))

/-- `DocumentProcessor.intelligent_chunk(text, chunk_size=500, overlap=100)`. -/
def intelligent_chunk (text : Str) (chunk_size ov : ℕ) : List Str :=
  let st := (paragraphsOf text).foldl (chunkStep chunk_size ov) ⟨[], []⟩
  let chunks := if st.current ≠ [] then st.chunks ++ [trim st.current] else st.chunks
  if chunks = [] then fallbackChunks (splitWS text) chunk_size (chunk_size - ov)
  else chunks

/-! ### RAGEngine.retrieve_relevant_chunks (app.py lines 152-168) -/

/-- Value of index `i` in the similarity row (indices produced below are
always in bounds, so the default is never read). -/
def argVal (xs : List ℚ) (i : ℕ) : ℚ := xs.getD i 0

/-- Insert index `i` into an ascending (by value, then by index) list of
indices, after every index of value ≤ its own — the placement a stable
ascending sort gives an element arriving after the others. -/
def argInsert (xs : List ℚ) (i : ℕ) : List ℕ → List ℕ
  | [] => [i]
  | j :: rest => if argVal xs j ≤ argVal xs i then j :: argInsert xs i rest else i :: j :: rest

/-- `np.argsort(similarities)` (ascending, default kind) modelled as a
deterministic ascending sort of the indices `0, …, n-1` by similarity
value. numpy does not document a tie order for equal elements in general
(its default quicksort is not stable), so no theorem relies on the tie
order of this model except at concrete two-element inputs, where numpy
runs insertion sort and agrees with this model. -/
def argsortAsc (xs : List ℚ) : List ℕ :=
  (List.range xs.length).foldl (fun acc i => argInsert xs i acc) []

/-- `np.argsort(similarities)[::-1][:top_k]`. -/
def topIndices (xs : List ℚ) (k : ℕ) : List ℕ := ((argsortAsc xs).reverse).take k

/-- Strict lexicographic order on indices: smaller value first, ties by
smaller index (the order of a stable ascending argsort). -/
def IdxLt (xs : List ℚ) (a b : ℕ) : Prop :=
  argVal xs a < argVal xs b ∨ (argVal xs a = argVal xs b ∧ a < b)

/-- `RAGEngine.retrieve_relevant_chunks`, with the embedding capability and
`cosine_similarity` modelled as the oracle similarity row `sims`
(index-aligned with `chunks`). Returns (retrieved chunks, their scores). -/
def retrieve_relevant_chunks (chunks : List Str) (sims : List ℚ) (top_k : ℕ) :
    List Str × List ℚ :=
  let top := topIndices sims top_k
  (top.map (fun i => chunks.getD i []), top.map (fun i => argVal sims i))

/-- The similarity computation at app.py line 161, with its failure mode
made explicit. Modelled from the documented contract of the sklearn
collaborator: `cosine_similarity` validates its inputs with check_array,
which rejects an empty embedding matrix (0 samples) by raising ValueError;
on valid input it yields one similarity per chunk — the oracle row
`sims`. -/
def cosine_similarity_row (chunks : List Str) (sims : List ℚ) : Except Str (List ℚ) :=
  if chunks = [] then Except.error (cs "ValueError: Found array with 0 sample(s)")
  else Except.ok sims

/-- `RAGEngine.retrieve_relevant_chunks` (app.py lines 152-168) with the
fallible cosine-similarity step explicit: the ValueError raised on an
empty chunk list propagates out (neither retrieve_relevant_chunks nor
answer_question catches it); on the ok path the top-k selection
(`retrieve_relevant_chunks` above) runs on the similarity row. -/
def retrieve_relevant_chunksE (chunks : List Str) (sims : List ℚ) (top_k : ℕ) :
    Except Str (List Str × List ℚ) :=
  match cosine_similarity_row chunks sims with
  | Except.error e => Except.error e
  | Except.ok similarities => Except.ok (retrieve_relevant_chunks chunks similarities top_k)

/-! ### RAGEngine.calculate_confidence (app.py lines 170-212) -/

/-- The distinct words of a string, as a finite set. -/
def wordSet (s : Str) : Finset Str := (splitWS s).toFinset

/-- The fixed uncertainty-phrase list (app.py line 198). -/
def uncertaintyPhrases : List Str :=
  [cs "not sure", cs "unclear", cs "cannot determine", cs "not found", cs "unknown"]

/-- Reasoning string for high confidence. -/
def highConfReasoning : Str := cs "High confidence: Strong retrieval match with complete answer"

/-- Reasoning string for medium confidence. -/
def medConfReasoning : Str := cs "Medium confidence: Partial match found in document"

/-- Reasoning string for low confidence. -/
def lowConfReasoning : Str := cs "Low confidence: Weak or no relevant information found"

/-- `RAGEngine.calculate_confidence`: multi-factor confidence scoring.
Returns (total confidence, reasoning). -/
def calculate_confidence (similarities : List ℚ) (answer context : Str) : ℚ × Str :=
  let avg_similarity : ℚ := if similarities ≠ [] then similarities.sum / similarities.length else 0
  let similarity_score := avg_similarity * (2/5)
  let answer_length : ℕ := (splitWS answer).length
  let completeness_score := min ((answer_length : ℚ) / 20) 1 * (1/5)
  let answer_words := wordSet (lowerStr answer)
  let context_words := wordSet (lowerStr context)
  let overlap : ℚ := ((answer_words ∩ context_words).card : ℚ) / max answer_words.card 1
  let overlap_score := overlap * (1/5)
  let has_uncertainty := uncertaintyPhrases.any (fun p => containsSub (lowerStr answer) p)
  let uncertainty_score : ℚ := if has_uncertainty then 0 else 1/5
  let total_confidence := similarity_score + completeness_score + overlap_score + uncertainty_score
  let reasoning :=
    if total_confidence ≥ 7/10 then highConfReasoning
    else if total_confidence ≥ 2/5 then medConfReasoning
    else lowConfReasoning
  (total_confidence, reasoning)

/-! ### RAGEngine.apply_guardrails and answer_question (app.py lines 214-288) -/

/-- The Rule 1 refusal message (app.py line 227). -/
def notFoundMsg : Str :=
  cs "NOT_FOUND: No relevant information found in the document. The question may be outside the document\x27s scope."

/-- The Rule 2 refusal message (app.py line 231), containing the confidence
formatted to two decimals. -/
def lowConfMsg (confidence : ℚ) : Str :=
  cs "LOW_CONFIDENCE: The answer has low confidence (" ++ fmt2 confidence ++
    cs "). The information may not be reliable."

/-- `RAGEngine.apply_guardrails(similarities, confidence)`: thresholds are
`min_similarity_threshold = 0.25` and `low_confidence_threshold = 0.4`. -/
def apply_guardrails (similarities : List ℚ) (confidence : ℚ) : Option Str :=
  if similarities = [] ∨ pyMaxQ similarities < 1/4 then some notFoundMsg
  else if confidence < 2/5 then some (lowConfMsg confidence)
  else none

/-- Reasoning installed by a triggered guardrail (app.py line 281). -/
def guardrailReasoning : Str := cs "Guardrail triggered"

/-- The guardrail override block of `answer_question` (app.py lines
277-281): returns the possibly overridden (answer, confidence, reasoning). -/
def applyOverride (answer_text : Str) (confidence : ℚ) (reasoning : Str)
    (similarities : List ℚ) : Str × ℚ × Str :=
  match apply_guardrails similarities confidence with
  | some msg => (msg, 0, guardrailReasoning)
  | none => (answer_text, confidence, reasoning)

/-- The `Answer` response model (app.py lines 59-63). -/
structure Answer where
  answer : Str
  sources : List Str
  confidence : ℚ
  reasoning : Str
deriving DecidableEq

/-- Separator used to join retrieved chunks into the grounding context. -/
def contextSep : Str := cs "\n\n---\n\n"

/-- `RAGEngine.answer_question` (app.py lines 235-288), with the embedding
capability modelled by the similarity row `sims` and the generation
capability (or its fallback / error rendering) modelled by the resulting
`answer_text`. -/
def answer_question (sims : List ℚ) (chunks : List Str) (answer_text : Str) : Answer :=
  let rc := retrieve_relevant_chunks chunks sims 3
  let context := joinWith contextSep rc.1
  let cr := calculate_confidence rc.2 answer_text context
  let ov := applyOverride answer_text cr.1 cr.2 rc.2
  { answer := ov.1, sources := rc.1, confidence := pyRound3 ov.2.1, reasoning := ov.2.2 }

/-- The (answer, confidence, reasoning) triple produced by the guardrail
stage of `answer_question`, before the final rounding. -/
def guardrailStage (sims : List ℚ) (chunks : List Str) (answer_text : Str) : Str × ℚ × Str :=
  let rc := retrieve_relevant_chunks chunks sims 3
  let cr := calculate_confidence rc.2 answer_text (joinWith contextSep rc.1)
  applyOverride answer_text cr.1 cr.2 rc.2

/-! ### StructuredExtractor.extract_structured_data (app.py lines 294-339) -/

/-- A JSON value as it matters to the extractor: `null`, a string, or
anything else (number, boolean, array, object — all of which fail pydantic
validation for the declared `Optional[str]` fields). -/
inductive JVal
  | null
  | jstr (s : Str)
  | other
deriving DecidableEq

/-- Is the value JSON `null` (Python `None`)? -/
def JVal.isNull : JVal → Bool
  | .null => true
  | _ => false

/-- Is the value neither `null` nor a string? -/
def JVal.isOther : JVal → Bool
  | .other => true
  | _ => false

/-- The `StructuredData` response model (app.py lines 65-77): eleven
optional string fields plus a confidence defaulting to 0. -/
structure StructuredData where
  shipment_id : Option Str := none
  shipper : Option Str := none
  consignee : Option Str := none
  pickup_datetime : Option Str := none
  delivery_datetime : Option Str := none
  equipment_type : Option Str := none
  mode : Option Str := none
  rate : Option Str := none
  currency : Option Str := none
  weight : Option Str := none
  carrier_name : Option Str := none
  confidence : ℚ := 0
deriving DecidableEq

/-- The eleven declared field names. -/
def fieldNames : List Str :=
  [cs "shipment_id", cs "shipper", cs "consignee", cs "pickup_datetime",
   cs "delivery_datetime", cs "equipment_type", cs "mode", cs "rate",
   cs "currency", cs "weight", cs "carrier_name"]

/-- First-match lookup in the parsed JSON object (JSON objects have unique
keys, so first-match agrees with Python dict lookup). -/
def lookupJ (k : Str) : List (Str × JVal) → Option JVal
  | [] => none
  | p :: rest => if p.1 = k then some p.2 else lookupJ k rest

/-- A looked-up JSON value as a model field: a string value populates the
field, anything else leaves it `None`. -/
def jOptToField : Option JVal → Option Str
  | some (JVal.jstr s) => some s
  | _ => none

/-- Field value for the constructed model: a string value populates the
field, `null` or a missing key leaves it `None`. -/
def jFieldStr (k : Str) (data : List (Str × JVal)) : Option Str :=
  jOptToField (lookupJ k data)

/-- `sum(1 for v in data.values() if v is not None)` (app.py line 331). -/
def nonNullCount (data : List (Str × JVal)) : ℕ :=
  data.countP (fun p => !p.2.isNull)

/-- `StructuredData(**data, confidence=c)` (app.py line 334): fails (and
is caught) when `data` has a `confidence` key (Python `TypeError`:
duplicate keyword) or a declared field holds a non-null non-string value
(pydantic validation error); extra keys are ignored. -/
def constructSD (data : List (Str × JVal)) (conf : ℚ) : Option StructuredData :=
  if data.any (fun p => p.1 == cs "confidence") then none
  else if data.any (fun p => fieldNames.contains p.1 && p.2.isOther) then none
  else some
    { shipment_id := jFieldStr (cs "shipment_id") data
      shipper := jFieldStr (cs "shipper") data
      consignee := jFieldStr (cs "consignee") data
      pickup_datetime := jFieldStr (cs "pickup_datetime") data
      delivery_datetime := jFieldStr (cs "delivery_datetime") data
      equipment_type := jFieldStr (cs "equipment_type") data
      mode := jFieldStr (cs "mode") data
      rate := jFieldStr (cs "rate") data
      currency := jFieldStr (cs "currency") data
      weight := jFieldStr (cs "weight") data
      carrier_name := jFieldStr (cs "carrier_name") data
      confidence := conf }

/-- Outcome of the generation-capability interaction in
`extract_structured_data`, as far as the surrounding code can observe:
no client configured; the invocation raised; the response had no
brace-delimited substring; `json.loads` raised; or a JSON object was
parsed. -/
inductive ExtractOutcome
  | noClient
  | genError (e : Str)
  | noJsonObject
  | parseFailure
  | parsed (data : List (Str × JVal))

/-- `StructuredExtractor.extract_structured_data` (app.py lines 294-339)
over the observable outcome of the generation capability. Every failure
path returns the all-default model (all fields `None`, confidence 0). -/
def extract_structured_data : ExtractOutcome → StructuredData
  | .noClient => {}
  | .genError _ => {}
  | .noJsonObject => {}
  | .parseFailure => {}
  | .parsed data =>
    let non_null_count := nonNullCount data
    let confidence : ℚ := (non_null_count : ℚ) / 11
    match constructSD data (pyRound3 confidence) with
    | some sd => sd
    | none => {}

/-- The all-default model: all eleven fields `None`, confidence 0. -/
def allNullZero : StructuredData := {}

/-- Embed an optional string field value into JSON (`None` ↦ `null`). -/
def optJ : Option Str → JVal
  | none => .null
  | some s => .jstr s

/-- A parsed JSON object carrying exactly the eleven declared fields, each
present (a string) or absent (`null`). -/
def mkParsed (v1 v2 v3 v4 v5 v6 v7 v8 v9 v10 v11 : Option Str) : List (Str × JVal) :=
  [(cs "shipment_id", optJ v1), (cs "shipper", optJ v2), (cs "consignee", optJ v3),
   (cs "pickup_datetime", optJ v4), (cs "delivery_datetime", optJ v5),
   (cs "equipment_type", optJ v6), (cs "mode", optJ v7), (cs "rate", optJ v8),
   (cs "currency", optJ v9), (cs "weight", optJ v10), (cs "carrier_name", optJ v11)]

/-! ## Spec-side definitions

These follow the wording of the specification, to be compared with the
definitions embedded from the source. -/

/-- Spec wording (C8): 0.4 times the mean of the similarities (0 if none). -/
def specSimilarityFactor (sims : List ℚ) : ℚ :=
  (2/5) * (if sims = [] then 0 else sims.sum / sims.length)

/-- Spec wording (C8): 0.2 times `min(word_count(answer)/20, 1.0)`. -/
def specCompletenessFactor (answer : Str) : ℚ :=
  (1/5) * min (((splitWS answer).length : ℚ) / 20) 1

/-- Spec wording (C8): 0.2 times the fraction of distinct lowercase answer
words present in the lowercase context word set, denominator at least 1. -/
def specOverlapFactor (answer context : Str) : ℚ :=
  (1/5) * (((wordSet (lowerStr answer) ∩ wordSet (lowerStr context)).card : ℚ) /
    max (wordSet (lowerStr answer)).card 1)

/-- Spec wording (C8): 0.2 unless the lowercase answer contains one of the
five fixed uncertainty phrases, in which case 0. -/
def specCertaintyFactor (answer : Str) : ℚ :=
  if uncertaintyPhrases.any (fun p => containsSub (lowerStr answer) p) then 0 else 1/5

/-- Does the text contain at least one non-whitespace character? -/
def hasNonWS (s : Str) : Bool := s.any (fun c => !wsChar c)

/-! ## Helper lemmas -/

theorem optJ_isOther (v : Option Str) : (optJ v).isOther = false := by
  cases v <;> rfl

theorem optJ_notNull (v : Option Str) : (!(optJ v).isNull) = v.isSome := by
  cases v <;> rfl

theorem jOptToField_optJ (v : Option Str) : jOptToField (some (optJ v)) = v := by
  cases v <;> rfl

theorem pyRound3_zero : pyRound3 0 = 0 := by
  have h : pyRoundInt 0 = 0 := by
    rw [pyRoundInt]
    norm_num
  simp [pyRound3, h]

theorem argInsert_mem (xs : List ℚ) (i : ℕ) (l : List ℕ) (m : ℕ) :
    m ∈ argInsert xs i l ↔ m = i ∨ m ∈ l := by
  induction l with
  | nil => simp [argInsert]
  | cons j rest ih =>
    rw [argInsert]
    split_ifs with h
    · simp only [List.mem_cons, ih]
      tauto
    · simp only [List.mem_cons]

theorem argInsert_length (xs : List ℚ) (i : ℕ) (l : List ℕ) :
    (argInsert xs i l).length = l.length + 1 := by
  induction l with
  | nil => rfl
  | cons j rest ih =>
    rw [argInsert]
    split_ifs with h <;> simp [ih]

theorem argInsert_pairwise (xs : List ℚ) (i : ℕ) (l : List ℕ)
    (hl : l.Pairwise (IdxLt xs)) (hi : ∀ j ∈ l, j < i) :
    (argInsert xs i l).Pairwise (IdxLt xs) := by
  induction l with
  | nil => simp [argInsert]
  | cons j rest ih =>
    rw [List.pairwise_cons] at hl
    obtain ⟨hj, hrest⟩ := hl
    rw [argInsert]
    split_ifs with h
    · rw [List.pairwise_cons]
      refine ⟨?_, ih hrest (fun m hm => hi m (List.mem_cons_of_mem _ hm))⟩
      intro m hm
      rw [argInsert_mem] at hm
      rcases hm with rfl | hm
      · rcases lt_or_eq_of_le h with hlt | heq
        · exact Or.inl hlt
        · exact Or.inr ⟨heq, hi j (List.mem_cons_self _ _)⟩
      · exact hj m hm
    · rw [List.pairwise_cons]
      constructor
      · intro m hm
        rcases List.mem_cons.mp hm with rfl | hm2
        · exact Or.inl (not_le.mp h)
        · rcases hj m hm2 with hlt | ⟨heq, _⟩
          · exact Or.inl (lt_trans (not_le.mp h) hlt)
          · exact Or.inl (heq ▸ not_le.mp h)
      · exact List.pairwise_cons.mpr ⟨hj, hrest⟩

theorem foldl_argInsert_pairwise (xs : List ℚ) :
    ∀ (l acc : List ℕ), acc.Pairwise (IdxLt xs) →
      (∀ j ∈ acc, ∀ i ∈ l, j < i) → l.Pairwise (· < ·) →
      (l.foldl (fun a i => argInsert xs i a) acc).Pairwise (IdxLt xs) := by
  intro l
  induction l with
  | nil =>
    intro acc h _ _
    simpa using h
  | cons i rest ih =>
    intro acc hacc hji hl
    rw [List.foldl_cons]
    rw [List.pairwise_cons] at hl
    apply ih
    · exact argInsert_pairwise xs i acc hacc (fun j hj => hji j hj i (List.mem_cons_self _ _))
    · intro j hj i2 hi2
      rw [argInsert_mem] at hj
      rcases hj with rfl | hj
      · exact hl.1 i2 hi2
      · exact hji j hj i2 (List.mem_cons_of_mem _ hi2)
    · exact hl.2

theorem argsortAsc_pairwise (xs : List ℚ) : (argsortAsc xs).Pairwise (IdxLt xs) :=
  foldl_argInsert_pairwise xs (List.range xs.length) [] List.Pairwise.nil
    (by simp) (List.pairwise_lt_range _)

theorem foldl_argInsert_length (xs : List ℚ) :
    ∀ (l acc : List ℕ),
      (l.foldl (fun a i => argInsert xs i a) acc).length = acc.length + l.length := by
  intro l
  induction l with
  | nil =>
    intro acc
    simp
  | cons i rest ih =>
    intro acc
    rw [List.foldl_cons, ih, argInsert_length]
    simp only [List.length_cons]
    omega

theorem argsortAsc_length (xs : List ℚ) : (argsortAsc xs).length = xs.length := by
  rw [argsortAsc, foldl_argInsert_length]
  simp

theorem trim_eq_nil_iff (s : Str) : trim s = [] ↔ ∀ c ∈ s, wsChar c = true := by
  rw [trim, List.reverse_eq_nil_iff, List.dropWhile_eq_nil_iff]
  constructor
  · intro h c hc
    have hsplit := List.takeWhile_append_dropWhile (p := wsChar) (l := s)
    rw [← hsplit] at hc
    rcases List.mem_append.mp hc with h1 | h2
    · exact List.mem_takeWhile_imp h1
    · exact h c (List.mem_reverse.mpr h2)
  · intro h c hc
    exact h c ((List.dropWhile_sublist _).subset (List.mem_reverse.mp hc))

theorem mem_trim (s : Str) (c : Char) (hc : c ∈ s) (hw : wsChar c = false) : c ∈ trim s := by
  have step : ∀ (l : List Char), c ∈ l → c ∈ l.dropWhile wsChar := by
    intro l hl
    have hsplit := List.takeWhile_append_dropWhile (p := wsChar) (l := l)
    rw [← hsplit] at hl
    rcases List.mem_append.mp hl with h1 | h2
    · have hcw := List.mem_takeWhile_imp h1
      rw [hw] at hcw
      exact absurd hcw (by simp)
    · exact h2
  rw [trim, List.mem_reverse]
  exact step _ (List.mem_reverse.mpr (step _ hc))

theorem trim_ne_nil (s : Str) (h : hasNonWS s = true) : trim s ≠ [] := by
  rw [hasNonWS, List.any_eq_true] at h
  obtain ⟨c, hc, hcw⟩ := h
  have hf : wsChar c = false := by simpa using hcw
  intro hnil
  rw [trim_eq_nil_iff] at hnil
  rw [hnil c hc] at hf
  simp at hf

theorem hasNonWS_trim (s : Str) (h : hasNonWS s = true) : hasNonWS (trim s) = true := by
  rw [hasNonWS, List.any_eq_true] at h ⊢
  obtain ⟨c, hc, hcw⟩ := h
  have hf : wsChar c = false := by simpa using hcw
  exact ⟨c, mem_trim s c hc hf, by rw [hf]; rfl⟩

theorem trim_trim_ne_nil (s : Str) (h : hasNonWS s = true) : trim (trim s) ≠ [] :=
  trim_ne_nil _ (hasNonWS_trim s h)

theorem trim_length_le (s : Str) : (trim s).length ≤ s.length := by
  rw [trim, List.length_reverse]
  refine le_trans (List.dropWhile_sublist _).length_le ?_
  rw [List.length_reverse]
  exact (List.dropWhile_sublist _).length_le

theorem hasNonWS_ne_nil (s : Str) (h : hasNonWS s = true) : s ≠ [] := by
  rintro rfl
  simp [hasNonWS] at h

theorem hasNonWS_append (x p : Str) (h : hasNonWS p = true) : hasNonWS (x ++ p) = true := by
  rw [hasNonWS, List.any_eq_true] at h ⊢
  obtain ⟨c, hc, hcw⟩ := h
  exact ⟨c, List.mem_append_right _ hc, hcw⟩

theorem splitPara_ne_nil (s : Str) : splitPara s ≠ [] := by
  induction s using splitPara.induct with
  | case1 => simp [splitPara]
  | case2 c => simp [splitPara]
  | case3 c d r h ih =>
    have heq : splitPara (c :: d :: r) = [] :: splitPara r := by
      simp only [splitPara]
      rw [if_pos h]
    rw [heq]
    simp
  | case4 c d r h hsp ih => exact absurd hsp ih
  | case5 c d r h seg segs hsp ih =>
    have heq : splitPara (c :: d :: r) = (c :: seg) :: segs := by
      simp only [splitPara]
      rw [if_neg h, hsp]
    rw [heq]
    simp

theorem splitPara_weight (s : Str) :
    sumLen (splitPara s) + 2 * (splitPara s).length = s.length + 2 := by
  induction s using splitPara.induct with
  | case1 => rfl
  | case2 c => rfl
  | case3 c d r h ih =>
    have heq : splitPara (c :: d :: r) = [] :: splitPara r := by
      simp only [splitPara]
      rw [if_pos h]
    rw [heq]
    simp only [sumLen, List.map_cons, List.sum_cons, List.length_cons, List.length_nil] at ih ⊢
    omega
  | case4 c d r h hsp ih => exact absurd hsp (splitPara_ne_nil _)
  | case5 c d r h seg segs hsp ih =>
    have heq : splitPara (c :: d :: r) = (c :: seg) :: segs := by
      simp only [splitPara]
      rw [if_neg h, hsp]
    rw [heq]
    rw [hsp] at ih
    simp only [sumLen, List.map_cons, List.sum_cons, List.length_cons] at ih ⊢
    omega

theorem splitPara_mem_char (s : Str) (c : Char) (hc : c ∈ s) (hw : wsChar c = false) :
    ∃ seg ∈ splitPara s, c ∈ seg := by
  induction s using splitPara.induct with
  | case1 => simp at hc
  | case2 c2 =>
    rw [List.mem_singleton] at hc
    exact ⟨[c2], by simp [splitPara], by simp [hc]⟩
  | case3 c2 d r h ih =>
    obtain ⟨rfl, rfl⟩ := h
    have hcr : c ∈ r := by
      rcases List.mem_cons.mp hc with rfl | hc2
      · rw [show wsChar '\n' = true from rfl] at hw
        exact absurd hw (by simp)
      · rcases List.mem_cons.mp hc2 with rfl | hc3
        · rw [show wsChar '\n' = true from rfl] at hw
          exact absurd hw (by simp)
        · exact hc3
    obtain ⟨seg, hseg, hcs⟩ := ih hcr
    have heq : splitPara ('\n' :: '\n' :: r) = [] :: splitPara r := rfl
    exact ⟨seg, by rw [heq]; exact List.mem_cons_of_mem _ hseg, hcs⟩
  | case4 c2 d r h hsp ih => exact absurd hsp (splitPara_ne_nil _)
  | case5 c2 d r h seg segs hsp ih =>
    have heq : splitPara (c2 :: d :: r) = (c2 :: seg) :: segs := by
      simp only [splitPara]
      rw [if_neg h, hsp]
    rcases List.mem_cons.mp hc with rfl | hc2
    · exact ⟨c :: seg, by rw [heq]; exact List.mem_cons_self _ _, List.mem_cons_self _ _⟩
    · obtain ⟨seg2, hseg2, hcs2⟩ := ih hc2
      rw [hsp] at hseg2
      rcases List.mem_cons.mp hseg2 with rfl | hseg3
      · exact ⟨c2 :: seg2, by rw [heq]; exact List.mem_cons_self _ _,
          List.mem_cons_of_mem _ hcs2⟩
      · exact ⟨seg2, by rw [heq]; exact List.mem_cons_of_mem _ hseg3, hcs2⟩

theorem splitPara_subset (s : Str) :
    ∀ seg ∈ splitPara s, ∀ c ∈ seg, c ∈ s := by
  induction s using splitPara.induct with
  | case1 =>
    intro seg hseg c hcs
    rw [show splitPara [] = [[]] from rfl, List.mem_singleton] at hseg
    subst hseg
    simp at hcs
  | case2 c2 =>
    intro seg hseg c hcs
    rw [show splitPara [c2] = [[c2]] from rfl, List.mem_singleton] at hseg
    subst hseg
    exact hcs
  | case3 c2 d r h ih =>
    obtain ⟨rfl, rfl⟩ := h
    intro seg hseg c hcs
    have heq : splitPara ('\n' :: '\n' :: r) = [] :: splitPara r := rfl
    rw [heq] at hseg
    rcases List.mem_cons.mp hseg with rfl | hseg2
    · simp at hcs
    · exact List.mem_cons_of_mem _ (List.mem_cons_of_mem _ (ih seg hseg2 c hcs))
  | case4 c2 d r h hsp ih => exact absurd hsp (splitPara_ne_nil _)
  | case5 c2 d r h seg2 segs hsp ih =>
    intro seg hseg c hcs
    have heq : splitPara (c2 :: d :: r) = (c2 :: seg2) :: segs := by
      simp only [splitPara]
      rw [if_neg h, hsp]
    rw [heq] at hseg
    rcases List.mem_cons.mp hseg with rfl | hseg3
    · rcases List.mem_cons.mp hcs with rfl | hcs2
      · exact List.mem_cons_self _ _
      · exact List.mem_cons_of_mem _
          (ih seg2 (by rw [hsp]; exact List.mem_cons_self _ _) c hcs2)
    · exact List.mem_cons_of_mem _
        (ih seg (by rw [hsp]; exact List.mem_cons_of_mem _ hseg3) c hcs)

theorem sublist_sum_le (l l2 : List ℕ) (h : l.Sublist l2) : l.sum ≤ l2.sum := by
  induction h with
  | slnil => exact le_refl _
  | cons a h ih =>
    simp only [List.sum_cons]
    omega
  | cons₂ a h ih =>
    simp only [List.sum_cons]
    omega

theorem weight_sum (l : List Str) :
    (l.map (fun p => p.length + 2)).sum = sumLen l + 2 * l.length := by
  induction l with
  | nil => rfl
  | cons a l ih =>
    simp only [sumLen, List.map_cons, List.sum_cons, List.length_cons] at ih ⊢
    omega

theorem paragraphsOf_good (t : Str) :
    ∀ p ∈ paragraphsOf t, p ≠ [] ∧ hasNonWS p = true := by
  intro p hp
  rw [paragraphsOf, List.mem_filter] at hp
  obtain ⟨hmap, hne⟩ := hp
  have hpne : p ≠ [] := by simpa using hne
  refine ⟨hpne, ?_⟩
  obtain ⟨seg, hseg, rfl⟩ := List.mem_map.mp hmap
  have hnall : ¬ (∀ c ∈ seg, wsChar c = true) := fun hall => hpne ((trim_eq_nil_iff seg).mpr hall)
  push_neg at hnall
  obtain ⟨c, hc, hcw⟩ := hnall
  have hf : wsChar c = false := by
    cases hcase : wsChar c
    · rfl
    · exact absurd hcase hcw
  rw [hasNonWS, List.any_eq_true]
  exact ⟨c, mem_trim seg c hc hf, by rw [hf]; rfl⟩

theorem paragraphsOf_ne_nil (t : Str) (h : hasNonWS t = true) : paragraphsOf t ≠ [] := by
  rw [hasNonWS, List.any_eq_true] at h
  obtain ⟨c, hc, hcw⟩ := h
  have hf : wsChar c = false := by simpa using hcw
  obtain ⟨seg, hseg, hcs⟩ := splitPara_mem_char t c hc hf
  have hmem : trim seg ∈ paragraphsOf t := by
    rw [paragraphsOf, List.mem_filter]
    refine ⟨List.mem_map_of_mem _ hseg, ?_⟩
    have htne : trim seg ≠ [] := by
      intro hnil
      rw [trim_eq_nil_iff] at hnil
      rw [hnil c hcs] at hf
      simp at hf
    simpa using htne
  exact List.ne_nil_of_mem hmem

theorem paragraphsOf_all_ws (t : Str) (h : hasNonWS t = false) : paragraphsOf t = [] := by
  rw [hasNonWS, List.any_eq_false] at h
  rw [paragraphsOf, List.filter_eq_nil_iff]
  intro p hp
  obtain ⟨seg, hseg, rfl⟩ := List.mem_map.mp hp
  have hall : ∀ c ∈ seg, wsChar c = true := by
    intro c hcs
    have hct := splitPara_subset t seg hseg c hcs
    have hb := h c hct
    simpa using hb
  have hnil : trim seg = [] := (trim_eq_nil_iff seg).mpr hall
  simp [hnil]

theorem paragraphsOf_weight (t : Str) :
    sumLen (paragraphsOf t) + 2 * (paragraphsOf t).length ≤ t.length + 2 := by
  have hsub : (paragraphsOf t).Sublist ((splitPara t).map trim) := List.filter_sublist _
  have h1 : ((paragraphsOf t).map (fun p => p.length + 2)).sum ≤
      (((splitPara t).map trim).map (fun p => p.length + 2)).sum :=
    sublist_sum_le _ _ (hsub.map _)
  have h2 : (((splitPara t).map trim).map (fun p => p.length + 2)).sum ≤
      ((splitPara t).map (fun p => p.length + 2)).sum := by
    rw [List.map_map]
    apply List.sum_le_sum
    intro seg hseg
    have hl := trim_length_le seg
    simp only [Function.comp_apply]
    omega
  have h3 : ((splitPara t).map (fun p => p.length + 2)).sum = t.length + 2 := by
    rw [weight_sum]
    exact splitPara_weight t
  have h4 := weight_sum (paragraphsOf t)
  omega

theorem splitWSAux_all_ws (s : Str) (h : ∀ c ∈ s, wsChar c = true) :
    splitWSAux s = ([], []) := by
  induction s with
  | nil => rfl
  | cons c r ih =>
    have hc := h c (List.mem_cons_self _ _)
    simp only [splitWSAux]
    rw [ih (fun x hx => h x (List.mem_cons_of_mem _ hx))]
    simp [hc]

theorem splitWS_all_ws (s : Str) (h : ∀ c ∈ s, wsChar c = true) : splitWS s = [] := by
  rw [splitWS, splitWSAux_all_ws s h]
  rfl

theorem fallbackChunks_nil (a b : ℕ) : fallbackChunks [] a b = [] := by
  rw [fallbackChunks, pyRangeCount]
  split_ifs with h
  · rfl
  · rw [show (List.length ([] : List Str)) = 0 from rfl, Nat.div_eq_of_lt (by omega)]
    rfl

theorem chunkStep_else (chunk_size ov : ℕ) (st : ChunkState) (para : Str)
    (h : ¬(st.current.length + para.length > chunk_size ∧ st.current ≠ [])) :
    chunkStep chunk_size ov st para =
      { chunks := st.chunks,
        current := if st.current ≠ [] then st.current ++ ['\n', '\n'] ++ para else para } := by
  rw [chunkStep, if_neg h]

theorem fold_chunks_good (chunk_size ov : ℕ) :
    ∀ (ps : List Str) (st : ChunkState),
      (∀ p ∈ ps, hasNonWS p = true) →
      (∀ ch ∈ st.chunks, trim ch ≠ []) →
      (st.current = [] ∨ hasNonWS st.current = true) →
      ((∀ ch ∈ (ps.foldl (chunkStep chunk_size ov) st).chunks, trim ch ≠ []) ∧
       ((ps.foldl (chunkStep chunk_size ov) st).current = [] ∨
         hasNonWS (ps.foldl (chunkStep chunk_size ov) st).current = true) ∧
       ((st.current ≠ [] ∨ ps ≠ []) → (ps.foldl (chunkStep chunk_size ov) st).current ≠ [])) := by
  intro ps
  induction ps with
  | nil =>
    intro st hps hch hcur
    refine ⟨hch, hcur, ?_⟩
    rintro (h | h)
    · exact h
    · exact absurd rfl h
  | cons p rest ih =>
    intro st hps hch hcur
    rw [List.foldl_cons]
    have hp := hps p (List.mem_cons_self _ _)
    have hrest := fun q hq => hps q (List.mem_cons_of_mem _ hq)
    have hch2 : ∀ ch ∈ (chunkStep chunk_size ov st p).chunks, trim ch ≠ [] := by
      rw [chunkStep]
      split_ifs with h1 h2
      · intro ch hchm
        simp only [List.mem_append, List.mem_singleton] at hchm
        rcases hchm with h3 | h3
        · exact hch ch h3
        · subst h3
          rcases hcur with hc0 | hc1
          · exact absurd hc0 h1.2
          · exact trim_trim_ne_nil _ hc1
      · intro ch hchm
        exact hch ch hchm
      · intro ch hchm
        exact hch ch hchm
    have hcur2 : hasNonWS (chunkStep chunk_size ov st p).current = true := by
      rw [chunkStep]
      split_ifs with h1 h2
      · exact hasNonWS_append _ _ hp
      · exact hasNonWS_append _ _ hp
      · exact hp
    obtain ⟨g1, g2, g3⟩ := ih (chunkStep chunk_size ov st p) hrest hch2 (Or.inr hcur2)
    refine ⟨g1, g2, fun _ => ?_⟩
    exact g3 (Or.inl (hasNonWS_ne_nil _ hcur2))

theorem fold_chunks_small (chunk_size ov : ℕ) :
    ∀ (ps : List Str) (st : ChunkState),
      st.chunks = [] →
      st.current.length + sumLen ps + 2 * ps.length ≤ chunk_size + 1 →
      (ps.foldl (chunkStep chunk_size ov) st).chunks = [] := by
  intro ps
  induction ps with
  | nil =>
    intro st h _
    exact h
  | cons p rest ih =>
    intro st hch hbud
    rw [List.foldl_cons]
    have hsum : sumLen (p :: rest) = p.length + sumLen rest := by
      simp [sumLen]
    have hnogo : ¬(st.current.length + p.length > chunk_size ∧ st.current ≠ []) := by
      rintro ⟨hgt, _⟩
      rw [hsum] at hbud
      simp only [List.length_cons] at hbud
      omega
    rw [chunkStep_else chunk_size ov st p hnogo]
    apply ih
    · exact hch
    · show (if st.current ≠ [] then st.current ++ ['\n', '\n'] ++ p else p).length +
        sumLen rest + 2 * rest.length ≤ chunk_size + 1
      rw [hsum] at hbud
      simp only [List.length_cons] at hbud
      split_ifs with h2
      · simp only [List.length_append, List.length_cons, List.length_nil]
        omega
      · omega

theorem intelligent_chunk_of_hasNonWS (text : Str) (chunk_size ov : ℕ)
    (h : hasNonWS text = true) :
    intelligent_chunk text chunk_size ov =
      ((paragraphsOf text).foldl (chunkStep chunk_size ov) ⟨[], []⟩).chunks ++
        [trim ((paragraphsOf text).foldl (chunkStep chunk_size ov) ⟨[], []⟩).current] ∧
    (∀ ch ∈ ((paragraphsOf text).foldl (chunkStep chunk_size ov) ⟨[], []⟩).chunks,
      trim ch ≠ []) ∧
    hasNonWS ((paragraphsOf text).foldl (chunkStep chunk_size ov) ⟨[], []⟩).current = true := by
  obtain ⟨g1, g2, g3⟩ := fold_chunks_good chunk_size ov (paragraphsOf text) ⟨[], []⟩
    (fun p hp => (paragraphsOf_good text p hp).2) (by intro ch hch; simp at hch) (Or.inl rfl)
  have hcur : ((paragraphsOf text).foldl (chunkStep chunk_size ov) ⟨[], []⟩).current ≠ [] :=
    g3 (Or.inr (paragraphsOf_ne_nil text h))
  have hcw : hasNonWS ((paragraphsOf text).foldl (chunkStep chunk_size ov) ⟨[], []⟩).current
      = true := by
    rcases g2 with h2 | h2
    · exact absurd h2 hcur
    · exact h2
  refine ⟨?_, g1, hcw⟩
  show (if (if ((paragraphsOf text).foldl (chunkStep chunk_size ov) ⟨[], []⟩).current ≠ []
        then ((paragraphsOf text).foldl (chunkStep chunk_size ov) ⟨[], []⟩).chunks ++
          [trim ((paragraphsOf text).foldl (chunkStep chunk_size ov) ⟨[], []⟩).current]
        else ((paragraphsOf text).foldl (chunkStep chunk_size ov) ⟨[], []⟩).chunks) = []
      then fallbackChunks (splitWS text) chunk_size (chunk_size - ov)
      else (if ((paragraphsOf text).foldl (chunkStep chunk_size ov) ⟨[], []⟩).current ≠ []
        then ((paragraphsOf text).foldl (chunkStep chunk_size ov) ⟨[], []⟩).chunks ++
          [trim ((paragraphsOf text).foldl (chunkStep chunk_size ov) ⟨[], []⟩).current]
        else ((paragraphsOf text).foldl (chunkStep chunk_size ov) ⟨[], []⟩).chunks)) = _
  rw [if_pos hcur, if_neg (by simp)]

/-! ## Claim theorems -/

/-- C5 (code bug): for every `top_k`, retrieval over an empty chunk list
(whose index-aligned embedding matrix is empty) does NOT return an empty
result: the in-repo cosine-similarity call validates its inputs and raises
ValueError on the empty embedding matrix, so retrieval fails with an error
and never produces an ok result — contradicting the contract that callers
receive an empty result without a fault. -/
theorem C5_retrieve_empty_raises (top_k : ℕ) :
    retrieve_relevant_chunksE [] [] top_k =
      Except.error (cs "ValueError: Found array with 0 sample(s)") ∧
    ¬ ∃ res, retrieve_relevant_chunksE [] [] top_k = Except.ok res := by
  refine ⟨rfl, ?_⟩
  rintro ⟨res, hres⟩
  rw [show retrieve_relevant_chunksE [] [] top_k =
    Except.error (cs "ValueError: Found array with 0 sample(s)") from rfl] at hres
  cases hres

/-- C7: structured extraction never propagates a fault: when no generation
capability is configured, when the invocation fails, when the response has
no brace-delimited JSON object, when `json.loads` fails, and when the
parsed data is malformed (model construction fails), the result is the
all-null `StructuredData` with confidence exactly 0. -/
theorem C7_extraction_degrades_gracefully :
    allNullZero = StructuredData.mk none none none none none none none none none none none 0 ∧
    extract_structured_data .noClient = allNullZero ∧
    (∀ e, extract_structured_data (.genError e) = allNullZero) ∧
    extract_structured_data .noJsonObject = allNullZero ∧
    extract_structured_data .parseFailure = allNullZero ∧
    (∀ data, constructSD data (pyRound3 ((nonNullCount data : ℚ) / 11)) = none →
      extract_structured_data (.parsed data) = allNullZero) := by
  refine ⟨rfl, rfl, fun e => rfl, rfl, rfl, fun data h => ?_⟩
  simp [extract_structured_data, h, allNullZero]

/-- Witness for C7: a parsed object carrying a `confidence` key makes the
model construction fail, and extraction indeed returns the all-null
zero-confidence model. -/
theorem C7_extraction_degrades_gracefully_witness :
    extract_structured_data (.parsed [(cs "confidence", JVal.null)]) = allNullZero :=
  C7_extraction_degrades_gracefully.2.2.2.2.2 [(cs "confidence", JVal.null)] rfl

/-- C4: when the generation response parses to a JSON object carrying
exactly the eleven declared fields, each present (a string) or absent
(`null`), the extraction confidence is the count of non-null fields
divided by 11, rounded to 3 decimal places — for every combination of
present/absent fields; the fields themselves are routed unchanged. -/
theorem C4_extraction_confidence_coverage
    (v1 v2 v3 v4 v5 v6 v7 v8 v9 v10 v11 : Option Str) :
    extract_structured_data (.parsed (mkParsed v1 v2 v3 v4 v5 v6 v7 v8 v9 v10 v11)) =
      { shipment_id := v1, shipper := v2, consignee := v3, pickup_datetime := v4,
        delivery_datetime := v5, equipment_type := v6, mode := v7, rate := v8,
        currency := v9, weight := v10, carrier_name := v11,
        confidence := pyRound3
          ((([v1, v2, v3, v4, v5, v6, v7, v8, v9, v10, v11].countP Option.isSome : ℕ) : ℚ) / 11) } := by
  have h1 : (mkParsed v1 v2 v3 v4 v5 v6 v7 v8 v9 v10 v11).any
      (fun p => p.1 == cs "confidence") = false := rfl
  have h2 : (mkParsed v1 v2 v3 v4 v5 v6 v7 v8 v9 v10 v11).any
      (fun p => fieldNames.contains p.1 && p.2.isOther) = false := by
    simp [mkParsed, optJ_isOther]
  have hc : nonNullCount (mkParsed v1 v2 v3 v4 v5 v6 v7 v8 v9 v10 v11) =
      [v1, v2, v3, v4, v5, v6, v7, v8, v9, v10, v11].countP Option.isSome := by
    simp [nonNullCount, mkParsed, List.countP_cons, optJ_notNull]
  have hf1 : jFieldStr (cs "shipment_id") (mkParsed v1 v2 v3 v4 v5 v6 v7 v8 v9 v10 v11) = v1 := by
    show jOptToField (some (optJ v1)) = v1; exact jOptToField_optJ v1
  have hf2 : jFieldStr (cs "shipper") (mkParsed v1 v2 v3 v4 v5 v6 v7 v8 v9 v10 v11) = v2 := by
    show jOptToField (some (optJ v2)) = v2; exact jOptToField_optJ v2
  have hf3 : jFieldStr (cs "consignee") (mkParsed v1 v2 v3 v4 v5 v6 v7 v8 v9 v10 v11) = v3 := by
    show jOptToField (some (optJ v3)) = v3; exact jOptToField_optJ v3
  have hf4 : jFieldStr (cs "pickup_datetime") (mkParsed v1 v2 v3 v4 v5 v6 v7 v8 v9 v10 v11) = v4 := by
    show jOptToField (some (optJ v4)) = v4; exact jOptToField_optJ v4
  have hf5 : jFieldStr (cs "delivery_datetime") (mkParsed v1 v2 v3 v4 v5 v6 v7 v8 v9 v10 v11) = v5 := by
    show jOptToField (some (optJ v5)) = v5; exact jOptToField_optJ v5
  have hf6 : jFieldStr (cs "equipment_type") (mkParsed v1 v2 v3 v4 v5 v6 v7 v8 v9 v10 v11) = v6 := by
    show jOptToField (some (optJ v6)) = v6; exact jOptToField_optJ v6
  have hf7 : jFieldStr (cs "mode") (mkParsed v1 v2 v3 v4 v5 v6 v7 v8 v9 v10 v11) = v7 := by
    show jOptToField (some (optJ v7)) = v7; exact jOptToField_optJ v7
  have hf8 : jFieldStr (cs "rate") (mkParsed v1 v2 v3 v4 v5 v6 v7 v8 v9 v10 v11) = v8 := by
    show jOptToField (some (optJ v8)) = v8; exact jOptToField_optJ v8
  have hf9 : jFieldStr (cs "currency") (mkParsed v1 v2 v3 v4 v5 v6 v7 v8 v9 v10 v11) = v9 := by
    show jOptToField (some (optJ v9)) = v9; exact jOptToField_optJ v9
  have hf10 : jFieldStr (cs "weight") (mkParsed v1 v2 v3 v4 v5 v6 v7 v8 v9 v10 v11) = v10 := by
    show jOptToField (some (optJ v10)) = v10; exact jOptToField_optJ v10
  have hf11 : jFieldStr (cs "carrier_name") (mkParsed v1 v2 v3 v4 v5 v6 v7 v8 v9 v10 v11) = v11 := by
    show jOptToField (some (optJ v11)) = v11; exact jOptToField_optJ v11
  have hS : constructSD (mkParsed v1 v2 v3 v4 v5 v6 v7 v8 v9 v10 v11)
      (pyRound3 ((nonNullCount (mkParsed v1 v2 v3 v4 v5 v6 v7 v8 v9 v10 v11) : ℚ) / 11)) =
      some { shipment_id := v1, shipper := v2, consignee := v3, pickup_datetime := v4,
             delivery_datetime := v5, equipment_type := v6, mode := v7, rate := v8,
             currency := v9, weight := v10, carrier_name := v11,
             confidence := pyRound3
               ((([v1, v2, v3, v4, v5, v6, v7, v8, v9, v10, v11].countP Option.isSome : ℕ) : ℚ) / 11) } := by
    rw [constructSD, h1, h2]
    simp only [Bool.false_eq_true, if_false]
    rw [hf1, hf2, hf3, hf4, hf5, hf6, hf7, hf8, hf9, hf10, hf11, hc]
  show (match constructSD (mkParsed v1 v2 v3 v4 v5 v6 v7 v8 v9 v10 v11)
      (pyRound3 ((nonNullCount (mkParsed v1 v2 v3 v4 v5 v6 v7 v8 v9 v10 v11) : ℚ) / 11)) with
    | some sd => sd
    | none => {}) = _
  rw [hS]

/-- C9 counterexample: with `chunk_size = 5` and `overlap = 100`, closing
the one-word chunk "aaaaaa" on the triggering paragraph "b" seeds the next
chunk with no overlap words at all (the word count 1 is not greater than
`overlap/5 = 20`), so the next chunk is " b", not the claimed last-words
prefix followed by the paragraph. -/
theorem C9_counterexample :
    (cs "aaaaaa").length + (cs "b").length > 5 ∧ cs "aaaaaa" ≠ ([] : Str) ∧
    chunkStep 5 100 ⟨[], cs "aaaaaa"⟩ (cs "b") = ⟨[cs "aaaaaa"], cs " b"⟩ ∧
    cs " b" ≠ joinWith [' '] (lastWords (splitWS (cs "aaaaaa")) (100 / 5)) ++ [' '] ++ cs "b" := by
  decide

/-- C9 (amended): when the chunker closes a chunk (adding the next
paragraph would exceed `chunk_size` and the current chunk is non-empty),
the closed chunk is appended trimmed, and the next chunk is seeded with
the last `overlap/5` words of the closed chunk followed by the triggering
paragraph only when the closed chunk has more than `overlap/5` words;
otherwise the seed is empty and the next chunk is just a space followed by
the paragraph. -/
theorem C9_overlap_seeding (chunk_size ov : ℕ) (st : ChunkState) (para : Str)
    (hcond : st.current.length + para.length > chunk_size ∧ st.current ≠ []) :
    (chunkStep chunk_size ov st para).chunks = st.chunks ++ [trim st.current] ∧
    ((splitWS st.current).length > ov / 5 →
      (chunkStep chunk_size ov st para).current =
        joinWith [' '] (lastWords (splitWS st.current) (ov / 5)) ++ [' '] ++ para) ∧
    ((splitWS st.current).length ≤ ov / 5 →
      (chunkStep chunk_size ov st para).current = [' '] ++ para) := by
  unfold chunkStep
  rw [if_pos hcond]
  refine ⟨rfl, fun h => ?_, fun h => ?_⟩
  · show (if (splitWS st.current).length > ov / 5
        then joinWith [' '] (lastWords (splitWS st.current) (ov / 5)) else []) ++ [' '] ++ para = _
    rw [if_pos h]
  · show (if (splitWS st.current).length > ov / 5
        then joinWith [' '] (lastWords (splitWS st.current) (ov / 5)) else []) ++ [' '] ++ para = _
    rw [if_neg (by omega)]
    rfl

/-- Witness for C9 at a concrete split: a 21-word chunk being closed seeds
the next chunk with its last 20 words followed by the paragraph. -/
theorem C9_overlap_seeding_witness :
    (chunkStep 5 100 ⟨[], cs "a a a a a a a a a a a a a a a a a a a a a"⟩ (cs "b")).current =
      joinWith [' '] (lastWords (splitWS (cs "a a a a a a a a a a a a a a a a a a a a a")) (100 / 5)) ++
        [' '] ++ cs "b" :=
  (C9_overlap_seeding 5 100 ⟨[], cs "a a a a a a a a a a a a a a a a a a a a a"⟩ (cs "b")
    (by decide)).2.1 (by decide)

/-- C6 counterexample: the single-space text is a non-empty string shorter
than `chunk_size = 500`, yet the chunker returns the empty chunk sequence
(so neither the "non-empty output" part nor the "exactly one chunk" part
of the claim holds for it). -/
theorem C6_counterexample :
    cs " " ≠ ([] : Str) ∧ (cs " ").length < 500 ∧ intelligent_chunk (cs " ") 500 100 = [] := by
  decide

/-- C6 (amended): for text containing at least one non-whitespace
character, the chunker returns a non-empty sequence whose elements are all
non-empty after trimming; for text with no non-whitespace character
(including, but not only, the empty text) it returns the empty sequence;
and for text with a non-whitespace character and fewer than `chunk_size`
characters it returns exactly one chunk. -/
theorem C6_chunking (text : Str) (chunk_size ov : ℕ) :
    (hasNonWS text = true →
      intelligent_chunk text chunk_size ov ≠ [] ∧
      ∀ ch ∈ intelligent_chunk text chunk_size ov, trim ch ≠ []) ∧
    (hasNonWS text = false → intelligent_chunk text chunk_size ov = []) ∧
    (hasNonWS text = true → text.length < chunk_size →
      (intelligent_chunk text chunk_size ov).length = 1) := by
  refine ⟨fun h => ?_, fun h => ?_, fun h hlt => ?_⟩
  · obtain ⟨hres, hgood, hcw⟩ := intelligent_chunk_of_hasNonWS text chunk_size ov h
    constructor
    · rw [hres]
      simp
    · intro ch hch
      rw [hres] at hch
      rcases List.mem_append.mp hch with h2 | h2
      · exact hgood ch h2
      · rw [List.mem_singleton] at h2
        subst h2
        exact trim_trim_ne_nil _ hcw
  · have hall : ∀ c ∈ text, wsChar c = true := by
      rw [hasNonWS, List.any_eq_false] at h
      intro c hc
      have hb := h c hc
      simpa using hb
    have hp := paragraphsOf_all_ws text h
    have hres : intelligent_chunk text chunk_size ov =
        fallbackChunks (splitWS text) chunk_size (chunk_size - ov) := by
      show (if (if ((paragraphsOf text).foldl (chunkStep chunk_size ov) ⟨[], []⟩).current ≠ []
            then ((paragraphsOf text).foldl (chunkStep chunk_size ov) ⟨[], []⟩).chunks ++
              [trim ((paragraphsOf text).foldl (chunkStep chunk_size ov) ⟨[], []⟩).current]
            else ((paragraphsOf text).foldl (chunkStep chunk_size ov) ⟨[], []⟩).chunks) = []
          then fallbackChunks (splitWS text) chunk_size (chunk_size - ov)
          else (if ((paragraphsOf text).foldl (chunkStep chunk_size ov) ⟨[], []⟩).current ≠ []
            then ((paragraphsOf text).foldl (chunkStep chunk_size ov) ⟨[], []⟩).chunks ++
              [trim ((paragraphsOf text).foldl (chunkStep chunk_size ov) ⟨[], []⟩).current]
            else ((paragraphsOf text).foldl (chunkStep chunk_size ov) ⟨[], []⟩).chunks)) = _
      rw [hp]
      rfl
    rw [hres, splitWS_all_ws text hall, fallbackChunks_nil]
  · obtain ⟨hres, hgood, hcw⟩ := intelligent_chunk_of_hasNonWS text chunk_size ov h
    have hbud : sumLen (paragraphsOf text) + 2 * (paragraphsOf text).length ≤ chunk_size + 1 :=
      le_trans (paragraphsOf_weight text) (by omega)
    have hcz := fold_chunks_small chunk_size ov (paragraphsOf text) ⟨[], []⟩ rfl
      (by simpa using hbud)
    rw [hres, hcz]
    rfl

/-- Witness for C6 at a concrete input: the two-character text "hi" is
below the default chunk size and yields exactly one chunk, non-empty after
trimming. -/
theorem C6_chunking_witness :
    intelligent_chunk (cs "hi") 500 100 ≠ [] ∧
    (∀ ch ∈ intelligent_chunk (cs "hi") 500 100, trim ch ≠ []) ∧
    (intelligent_chunk (cs "hi") 500 100).length = 1 := by
  obtain ⟨ha, hb⟩ := (C6_chunking (cs "hi") 500 100).1 (by decide)
  exact ⟨ha, hb, (C6_chunking (cs "hi") 500 100).2.2 (by decide) (by decide)⟩

/-- C1 (amended): Rule 1 (empty similarities or maximum below 0.25)
overrides with the not-found message, Rule 2 (otherwise, confidence below
0.4) with the low-confidence message carrying the 2-decimal confidence;
either rule zeroes the confidence and replaces the reasoning with
"Guardrail triggered" (capital G); otherwise the guardrail stage passes
answer, confidence, and reasoning through unchanged, and the final
`Answer` reports the stage confidence rounded to 3 decimal places. -/
theorem C1_guardrail_policy (sims : List ℚ) (conf : ℚ) (a r : Str) :
    (sims = [] ∨ pyMaxQ sims < 1/4 →
      applyOverride a conf r sims = (notFoundMsg, 0, guardrailReasoning)) ∧
    (¬(sims = [] ∨ pyMaxQ sims < 1/4) → conf < 2/5 →
      applyOverride a conf r sims = (lowConfMsg conf, 0, guardrailReasoning)) ∧
    (¬(sims = [] ∨ pyMaxQ sims < 1/4) → ¬(conf < 2/5) →
      applyOverride a conf r sims = (a, conf, r)) ∧
    (∃ pre post : Str, lowConfMsg conf = pre ++ fmt2 conf ++ post) ∧
    (∀ m, apply_guardrails sims conf = some m →
      pyRound3 (applyOverride a conf r sims).2.1 = 0) ∧
    (∀ (simsq : List ℚ) (chunks : List Str) (answer_text : Str),
      answer_question simsq chunks answer_text =
        { answer := (guardrailStage simsq chunks answer_text).1,
          sources := (retrieve_relevant_chunks chunks simsq 3).1,
          confidence := pyRound3 (guardrailStage simsq chunks answer_text).2.1,
          reasoning := (guardrailStage simsq chunks answer_text).2.2 }) := by
  refine ⟨fun h1 => ?_, fun h1 h2 => ?_, fun h1 h2 => ?_, ?_, fun m hm => ?_, fun _ _ _ => rfl⟩
  · rw [applyOverride, apply_guardrails, if_pos h1]
  · rw [applyOverride, apply_guardrails, if_neg h1, if_pos h2]
  · rw [applyOverride, apply_guardrails, if_neg h1, if_neg h2]
  · exact ⟨cs "LOW_CONFIDENCE: The answer has low confidence (",
      cs "). The information may not be reliable.", rfl⟩
  · rw [applyOverride, hm]
    exact pyRound3_zero

/-- Witness for C1 at concrete inputs: empty similarities trigger Rule 1;
similarities `[1]` with confidence 1 trigger nothing and pass through. -/
theorem C1_guardrail_policy_witness :
    applyOverride (cs "x") 0 (cs "y") [] = (notFoundMsg, 0, guardrailReasoning) ∧
    applyOverride (cs "x") 1 (cs "y") [1] = (cs "x", 1, cs "y") := by
  constructor
  · exact (C1_guardrail_policy [] 0 (cs "x") (cs "y")).1 (Or.inl rfl)
  · refine (C1_guardrail_policy [1] 1 (cs "x") (cs "y")).2.2.1 ?_ (by norm_num)
    rintro (h | h)
    · exact List.cons_ne_nil _ _ h
    · rw [show pyMaxQ [(1:ℚ)] = 1 from rfl] at h
      norm_num at h

/-- C1 counterexample: the claim as stated fails twice on the code. At a
triggered guardrail the reasoning is "Guardrail triggered", not the
claimed "guardrail triggered"; and in the no-override case the confidence
does not pass through unchanged — for raw confidence 163/300 the reported
value is its 3-decimal rounding 543/1000. -/
theorem C1_counterexample :
    (answer_question [] [] (cs "x")).reasoning = guardrailReasoning ∧
    guardrailReasoning ≠ cs "guardrail triggered" ∧
    (calculate_confidence (retrieve_relevant_chunks [cs "hello"] [1/3] 3).2 (cs "hello")
      (joinWith contextSep (retrieve_relevant_chunks [cs "hello"] [1/3] 3).1)).1 = 163/300 ∧
    apply_guardrails (retrieve_relevant_chunks [cs "hello"] [1/3] 3).2 (163/300) = none ∧
    (answer_question [1/3] [cs "hello"] (cs "hello")).confidence = 543/1000 ∧
    ((543 : ℚ)/1000) ≠ 163/300 := by
  have hrc : retrieve_relevant_chunks [cs "hello"] [(1:ℚ)/3] 3 = ([cs "hello"], [1/3]) := rfl
  have hws : (splitWS (cs "hello")).length = 1 := rfl
  have hinter : ((wordSet (lowerStr (cs "hello")) ∩ wordSet (lowerStr (cs "hello"))).card) = 1 := rfl
  have hcard : (wordSet (lowerStr (cs "hello"))).card = 1 := rfl
  have hunc : (uncertaintyPhrases.any fun p => containsSub (lowerStr (cs "hello")) p) = false := rfl
  have hjoin : joinWith contextSep [cs "hello"] = cs "hello" := rfl
  have hconf : (calculate_confidence [(1:ℚ)/3] (cs "hello") (cs "hello")).1 = 163/300 := by
    show (if ([(1:ℚ)/3] ≠ []) then ([(1:ℚ)/3].sum / ([(1:ℚ)/3].length : ℚ)) else 0) * (2/5) +
        min (((splitWS (cs "hello")).length : ℚ) / 20) 1 * (1/5) +
        (((wordSet (lowerStr (cs "hello")) ∩ wordSet (lowerStr (cs "hello"))).card : ℚ) /
          max ((wordSet (lowerStr (cs "hello"))).card : ℚ) 1) * (1/5) +
        (if (uncertaintyPhrases.any fun p => containsSub (lowerStr (cs "hello")) p) = true
          then 0 else 1/5) = 163/300
    rw [hws, hinter, hcard, hunc]
    norm_num
  have hguard : apply_guardrails [(1:ℚ)/3] (163/300) = none := by
    rw [apply_guardrails, if_neg, if_neg]
    · norm_num
    · rintro (h | h)
      · exact List.cons_ne_nil _ _ h
      · rw [show pyMaxQ [(1:ℚ)/3] = 1/3 from rfl] at h
        norm_num at h
  refine ⟨rfl, by decide, by rw [hrc]; exact hconf, by rw [hrc]; exact hguard, ?_, by norm_num⟩
  have hp : pyRound3 (163/300) = 543/1000 := by
    have hfl : pyRoundInt ((163 : ℚ)/300 * 1000) = 543 := by
      have h1 : ((163 : ℚ)/300 * 1000) = 1630/3 := by norm_num
      have h2 : (⌊(1630 : ℚ)/3⌋ : ℤ) = 543 := by
        rw [Int.floor_eq_iff]
        norm_num
      rw [pyRoundInt, h1, h2]
      norm_num
    rw [pyRound3, hfl]
    norm_num
  show pyRound3 (applyOverride (cs "hello")
      (calculate_confidence (retrieve_relevant_chunks [cs "hello"] [(1:ℚ)/3] 3).2 (cs "hello")
        (joinWith contextSep (retrieve_relevant_chunks [cs "hello"] [(1:ℚ)/3] 3).1)).1
      (calculate_confidence (retrieve_relevant_chunks [cs "hello"] [(1:ℚ)/3] 3).2 (cs "hello")
        (joinWith contextSep (retrieve_relevant_chunks [cs "hello"] [(1:ℚ)/3] 3).1)).2
      (retrieve_relevant_chunks [cs "hello"] [(1:ℚ)/3] 3).2).2.1 = 543/1000
  rw [hrc]
  simp only [hjoin]
  rw [applyOverride, hconf, hguard]
  exact hp

/-- C2 (amended): for every similarity list with entries in [-1, 1] and any
answer/context strings, the raw confidence lies in [-2/5, 1] (the
similarity factor can be negative, so [0, 1] does not hold in general). -/
theorem C2_confidence_range (sims : List ℚ) (answer context : Str)
    (h : ∀ s ∈ sims, -1 ≤ s ∧ s ≤ 1) :
    -(2/5) ≤ (calculate_confidence sims answer context).1 ∧
      (calculate_confidence sims answer context).1 ≤ 1 := by
  have havg : -1 ≤ (if sims ≠ [] then sims.sum / (sims.length : ℚ) else 0) ∧
      (if sims ≠ [] then sims.sum / (sims.length : ℚ) else 0) ≤ 1 := by
    by_cases hne : sims = []
    · subst hne
      norm_num
    · rw [if_pos hne]
      have hlen : (0:ℚ) < sims.length := by
        have hp := List.length_pos.mpr hne
        exact_mod_cast hp
      constructor
      · rw [le_div_iff₀ hlen]
        have hs := List.card_nsmul_le_sum sims (-1 : ℚ) (fun x hx => (h x hx).1)
        rw [nsmul_eq_mul] at hs
        linarith
      · rw [div_le_one hlen]
        have hs := List.sum_le_card_nsmul sims (1 : ℚ) (fun x hx => (h x hx).2)
        rw [nsmul_eq_mul] at hs
        linarith
  have hcomp : (0:ℚ) ≤ min (((splitWS answer).length : ℚ) / 20) 1 ∧
      min (((splitWS answer).length : ℚ) / 20) 1 ≤ 1 :=
    ⟨le_min (by positivity) (by norm_num), min_le_right _ _⟩
  have hovd : (0:ℚ) < ((max (wordSet (lowerStr answer)).card 1 : ℕ) : ℚ) := by
    exact_mod_cast Nat.lt_of_lt_of_le Nat.zero_lt_one (Nat.le_max_right _ _)
  have hov : (0:ℚ) ≤ ((wordSet (lowerStr answer) ∩ wordSet (lowerStr context)).card : ℚ) /
        ((max (wordSet (lowerStr answer)).card 1 : ℕ) : ℚ) ∧
      ((wordSet (lowerStr answer) ∩ wordSet (lowerStr context)).card : ℚ) /
        ((max (wordSet (lowerStr answer)).card 1 : ℕ) : ℚ) ≤ 1 := by
    constructor
    · exact div_nonneg (by positivity) (le_of_lt hovd)
    · rw [div_le_one hovd]
      have hsub : (wordSet (lowerStr answer) ∩ wordSet (lowerStr context)).card ≤
          max (wordSet (lowerStr answer)).card 1 :=
        le_trans (Finset.card_le_card Finset.inter_subset_left) (Nat.le_max_left _ _)
      exact_mod_cast hsub
  have hunc : (0:ℚ) ≤ (if (uncertaintyPhrases.any fun p => containsSub (lowerStr answer) p) = true
        then (0:ℚ) else 1/5) ∧
      (if (uncertaintyPhrases.any fun p => containsSub (lowerStr answer) p) = true
        then (0:ℚ) else 1/5) ≤ 1/5 := by
    constructor <;> (split_ifs <;> norm_num)
  have hgoal : (calculate_confidence sims answer context).1 =
      (if sims ≠ [] then sims.sum / (sims.length : ℚ) else 0) * (2/5) +
      min (((splitWS answer).length : ℚ) / 20) 1 * (1/5) +
      (((wordSet (lowerStr answer) ∩ wordSet (lowerStr context)).card : ℚ) /
        ((max (wordSet (lowerStr answer)).card 1 : ℕ) : ℚ)) * (1/5) +
      (if (uncertaintyPhrases.any fun p => containsSub (lowerStr answer) p) = true
        then (0:ℚ) else 1/5) := rfl
  rw [hgoal]
  constructor
  · linarith [havg.1, havg.2, hcomp.1, hcomp.2, hov.1, hov.2, hunc.1, hunc.2]
  · linarith [havg.1, havg.2, hcomp.1, hcomp.2, hov.1, hov.2, hunc.1, hunc.2]

/-- Witness for C2 at a concrete input with similarities in [-1, 1]. -/
theorem C2_confidence_range_witness :
    -(2/5) ≤ (calculate_confidence [1/2] (cs "hi") (cs "hi")).1 ∧
      (calculate_confidence [1/2] (cs "hi") (cs "hi")).1 ≤ 1 :=
  C2_confidence_range [1/2] (cs "hi") (cs "hi") (by norm_num)

/-- C2 counterexample: for the in-range similarity list `[-1]` and empty
answer and context strings, the confidence is -1/5, which is not in
[0, 1] — refuting the claim as stated. -/
theorem C2_counterexample :
    (∀ s ∈ [(-1 : ℚ)], -1 ≤ s ∧ s ≤ 1) ∧
    (calculate_confidence [(-1 : ℚ)] [] []).1 = -(1/5) ∧
    ¬(0 ≤ (calculate_confidence [(-1 : ℚ)] [] []).1) := by
  have hws : (splitWS ([] : Str)).length = 0 := rfl
  have hinter : ((wordSet (lowerStr ([] : Str)) ∩ wordSet (lowerStr ([] : Str))).card) = 0 := rfl
  have hcard : (wordSet (lowerStr ([] : Str))).card = 0 := rfl
  have hunc : (uncertaintyPhrases.any fun p => containsSub (lowerStr ([] : Str)) p) = false := rfl
  have hv : (calculate_confidence [(-1 : ℚ)] [] []).1 = -(1/5) := by
    show (if ([(-1:ℚ)] ≠ []) then ([(-1:ℚ)].sum / ([(-1:ℚ)].length : ℚ)) else 0) * (2/5) +
        min (((splitWS ([] : Str)).length : ℚ) / 20) 1 * (1/5) +
        (((wordSet (lowerStr ([] : Str)) ∩ wordSet (lowerStr ([] : Str))).card : ℚ) /
          max ((wordSet (lowerStr ([] : Str))).card : ℚ) 1) * (1/5) +
        (if (uncertaintyPhrases.any fun p => containsSub (lowerStr ([] : Str)) p) = true
          then 0 else 1/5) = -(1/5)
    rw [hws, hinter, hcard, hunc]
    norm_num
  exact ⟨by norm_num, hv, by rw [hv]; norm_num⟩

/-- C8: the raw confidence is exactly the sum of the four factors as the
spec words them (0.4·mean similarity, 0.2·min(words/20, 1),
0.2·distinct-word overlap fraction, 0.2 certainty unless an uncertainty
phrase occurs), and a 2-word answer contributes exactly 1/50 = 0.02 as its
completeness factor. -/
theorem C8_confidence_formula (sims : List ℚ) (answer context : Str) :
    (calculate_confidence sims answer context).1 =
      specSimilarityFactor sims + specCompletenessFactor answer +
        specOverlapFactor answer context + specCertaintyFactor answer ∧
    (∀ a : Str, (splitWS a).length = 2 → specCompletenessFactor a = 1/50) := by
  constructor
  · show (if (sims ≠ []) then (sims.sum / (sims.length : ℚ)) else 0) * (2/5) +
        min (((splitWS answer).length : ℚ) / 20) 1 * (1/5) +
        (((wordSet (lowerStr answer) ∩ wordSet (lowerStr context)).card : ℚ) /
          ((max (wordSet (lowerStr answer)).card 1 : ℕ) : ℚ)) * (1/5) +
        (if (uncertaintyPhrases.any fun p => containsSub (lowerStr answer) p) = true
          then 0 else 1/5) = _
    rw [specSimilarityFactor, specCompletenessFactor, specOverlapFactor, specCertaintyFactor]
    rw [ite_not]
    push_cast
    ring_nf
  · intro a ha
    rw [specCompletenessFactor, ha]
    rw [show (((2:ℕ) : ℚ) / 20) = 1/10 by norm_num, min_eq_left (by norm_num)]
    norm_num

/-- Witness for C8: the concrete 2-word answer "25 lbs" has completeness
factor exactly 1/50. -/
theorem C8_confidence_formula_witness :
    specCompletenessFactor (cs "25 lbs") = 1/50 :=
  (C8_confidence_formula [] [] []).2 (cs "25 lbs") (by decide)

/-- C10: the `sources` field of the returned `Answer` is always exactly the
retrieved chunk texts; in particular when a guardrail override triggers
(the guardrail check on the retrieved scores and computed confidence
returns a message), the override replaces only answer text, confidence,
and reasoning, while sources still expose the retrieved excerpts. -/
theorem C10_sources_survive_override (sims : List ℚ) (chunks : List Str) (answer_text : Str)
    (_htrig : apply_guardrails (retrieve_relevant_chunks chunks sims 3).2
      (calculate_confidence (retrieve_relevant_chunks chunks sims 3).2 answer_text
        (joinWith contextSep (retrieve_relevant_chunks chunks sims 3).1)).1 ≠ none) :
    (answer_question sims chunks answer_text).sources =
      (retrieve_relevant_chunks chunks sims 3).1 :=
  rfl

/-- Witness for C10: a single chunk with similarity 0 triggers Rule 1, and
the refusal answer still carries that chunk as its source. -/
theorem C10_sources_survive_override_witness :
    (answer_question [0] [cs "c"] (cs "x")).sources = [cs "c"] := by
  have h := C10_sources_survive_override [0] [cs "c"] (cs "x")
  have hrc : (retrieve_relevant_chunks [cs "c"] [(0:ℚ)] 3).2 = [0] := rfl
  have htrig : apply_guardrails (retrieve_relevant_chunks [cs "c"] [(0:ℚ)] 3).2
      (calculate_confidence (retrieve_relevant_chunks [cs "c"] [(0:ℚ)] 3).2 (cs "x")
        (joinWith contextSep (retrieve_relevant_chunks [cs "c"] [(0:ℚ)] 3).1)).1 ≠ none := by
    rw [hrc, apply_guardrails, if_pos]
    · simp
    · right
      rw [show pyMaxQ [(0:ℚ)] = 0 from rfl]
      norm_num
  exact h htrig

/-- C3 (amended): over index-aligned similarities, retrieval returns at
most `top_k` results and never more than the number of available chunks,
ordered by non-increasing similarity. Equal-similarity ties are NOT broken
by original chunk order: the claimed stable smaller-index-first semantics
fails (see the counterexample, where two equal scores return the larger
original index first), and for larger arrays the default numpy argsort
documents no tie order at all, so no universal tie order is asserted. -/
theorem C3_retrieval_order (chunks : List Str) (sims : List ℚ) (k : ℕ)
    (hlen : sims.length = chunks.length) :
    ((retrieve_relevant_chunks chunks sims k).1).length ≤ k ∧
    ((retrieve_relevant_chunks chunks sims k).1).length ≤ chunks.length ∧
    ((retrieve_relevant_chunks chunks sims k).2).Pairwise (fun a b => b ≤ a) := by
  have htop : (topIndices sims k).Pairwise (fun a b => IdxLt sims b a) := by
    apply List.Pairwise.sublist (List.take_sublist _ _)
    rw [List.pairwise_reverse]
    exact argsortAsc_pairwise sims
  refine ⟨?_, ?_, ?_⟩
  · show ((topIndices sims k).map (fun i => chunks.getD i [])).length ≤ k
    rw [List.length_map, topIndices, List.length_take]
    exact min_le_left _ _
  · show ((topIndices sims k).map (fun i => chunks.getD i [])).length ≤ chunks.length
    rw [List.length_map, topIndices, List.length_take, List.length_reverse, argsortAsc_length, hlen]
    exact min_le_right _ _
  · show ((topIndices sims k).map (fun i => argVal sims i)).Pairwise (fun a b => b ≤ a)
    rw [List.pairwise_map]
    apply htop.imp
    intro a b hab
    rcases hab with hlt | ⟨heq, _⟩
    · exact le_of_lt hlt
    · exact le_of_eq heq

/-- Witness for C3 at a concrete input (two chunks with tied scores). -/
theorem C3_retrieval_order_witness :
    ((retrieve_relevant_chunks [cs "a", cs "b"] [1/2, 1/2] 2).1).length ≤ 2 ∧
    ((retrieve_relevant_chunks [cs "a", cs "b"] [1/2, 1/2] 2).1).length ≤
      ([cs "a", cs "b"] : List Str).length ∧
    ((retrieve_relevant_chunks [cs "a", cs "b"] [1/2, 1/2] 2).2).Pairwise (fun a b => b ≤ a) :=
  C3_retrieval_order [cs "a", cs "b"] [1/2, 1/2] 2 rfl

/-- C3 counterexample: two chunks with equal similarity 1/2. The claimed
stable tie-breaking would return `["a", "b"]` (smaller original index
first); the code returns `["b", "a"]` — the later chunk comes first. (On a
two-element array numpy argsort runs insertion sort, so the deterministic
model provably agrees with the program here.) -/
theorem C3_counterexample :
    argVal [(1:ℚ)/2, 1/2] 0 = argVal [(1:ℚ)/2, 1/2] 1 ∧
    retrieve_relevant_chunks [cs "a", cs "b"] [(1:ℚ)/2, 1/2] 2 =
      ([cs "b", cs "a"], [1/2, 1/2]) ∧
    ([cs "b", cs "a"] : List Str) ≠ [cs "a", cs "b"] := by
  have hle : argVal [(1:ℚ)/2, 1/2] 0 ≤ argVal [(1:ℚ)/2, 1/2] 1 := by
    rw [show argVal [(1:ℚ)/2, 1/2] 0 = 1/2 from rfl, show argVal [(1:ℚ)/2, 1/2] 1 = 1/2 from rfl]
  have h1 : argsortAsc [(1:ℚ)/2, 1/2] = [0, 1] := by
    rw [argsortAsc]
    rw [show List.range [(1:ℚ)/2, (1:ℚ)/2].length = [0, 1] from rfl]
    rw [List.foldl_cons, List.foldl_cons, List.foldl_nil]
    rw [show argInsert [(1:ℚ)/2, 1/2] 0 [] = [0] from rfl]
    rw [argInsert, if_pos hle]
    rfl
  refine ⟨by rw [show argVal [(1:ℚ)/2, 1/2] 0 = 1/2 from rfl,
    show argVal [(1:ℚ)/2, 1/2] 1 = 1/2 from rfl], ?_, by decide⟩
  rw [retrieve_relevant_chunks, topIndices, h1]
  rfl

end UltraDoc
